import Mathlib

/-!
Verification development for the job-discovery and matching pipeline.

The Lean definitions below are a shallow embedding of the program:

* `canonicalize_url` embeds `utils/utils.py` (`canonicalize_url`), together
  with the parts of the Python standard library `urllib.parse` machinery it
  calls (`urlparse` / `urlunparse`), modelled algorithmically on `List Char`.
* `clean_html` embeds `utils/content_cleaner.py` (`ContentCleaner.clean_html`),
  parametrised by the outcome of the external HTML parser (BeautifulSoup).
* `calculate_match_score` and `basic_match_score` embed `utils/matcher.py`,
  parametrised by the outcomes of the external TF-IDF perplexity computation
  and of the external LLM evaluator.
* `processLinkedInJobs` and `process_jobs` embed the scraping phase of
  `job_processing/core.py`, with the record store (Airtable) modelled as the
  list of stored "Job Link" values.
* `processJobMatches` embeds the matching phase of `job_processing/core.py`.
* `check_cookie_health` and `test_cookie_session` embed
  `job_sources/linkedin_cookie_health.py`.
* `updateTaskProg` and the small lock-step interpreter embed the advisory
  file-locking discipline of `api/routes/jobs.py`.
-/

/-! ## URL canonicalizer: model of `utils/utils.py` `canonicalize_url`

The Python function runs `urlparse`, rebuilds the URL with `urlunparse`
keeping only scheme, netloc and path, and finally applies `rstrip` with
the slash character.  The relevant `urllib.parse` internals are modelled
below on `List Char`.  Not modelled: the `ValueError` raised by `urlsplit`
for mismatched IPv6 brackets in the netloc (inputs without brackets are
unaffected), and Unicode-aware lowercasing beyond ASCII (the scheme is
already validated to be ASCII letters, digits, `+`, `-`, `.`). -/

/-- ASCII lowercase of a single character, as Python `str.lower` acts on
the ASCII range (only range reachable for a validated URL scheme). -/
def asciiLower : Char → Char
  | 'A' => 'a' | 'B' => 'b' | 'C' => 'c' | 'D' => 'd' | 'E' => 'e' | 'F' => 'f'
  | 'G' => 'g' | 'H' => 'h' | 'I' => 'i' | 'J' => 'j' | 'K' => 'k' | 'L' => 'l'
  | 'M' => 'm' | 'N' => 'n' | 'O' => 'o' | 'P' => 'p' | 'Q' => 'q' | 'R' => 'r'
  | 'S' => 's' | 'T' => 't' | 'U' => 'u' | 'V' => 'v' | 'W' => 'w' | 'X' => 'x'
  | 'Y' => 'y' | 'Z' => 'z'
  | c => c

/-- Characters allowed in a URL scheme (`scheme_chars` in `urllib.parse`). -/
def schemeChar (c : Char) : Bool :=
  c.isAlphanum || c == '+' || c == '-' || c == '.'

/-- Split a character list at the first character satisfying `p`:
returns the part strictly before and the part strictly after it,
or `none` when no character satisfies `p` (models `str.find` plus
slicing / `str.split(sep, 1)`). -/
def splitFirst (p : Char → Bool) : List Char → Option (List Char × List Char)
  | [] => none
  | c :: cs =>
    if p c then some ([], cs)
    else match splitFirst p cs with
      | none => none
      | some (a, b) => some (c :: a, b)

/-- Bytes removed from URLs by `urllib.parse` before splitting
(`_UNSAFE_URL_BYTES_TO_REMOVE`: tab, carriage return, newline). -/
def unsafeUrlByte (c : Char) : Bool :=
  c == '\t' || c == '\r' || c == '\n'

/-- Scheme detection of `urlsplit`: a first colon preceded by a non-empty
run of scheme characters starting with an ASCII letter yields the
(lowercased) scheme and the remainder; otherwise no scheme is split off. -/
def splitScheme (l : List Char) : List Char × List Char :=
  match splitFirst (· == ':') l with
  | none => ([], l)
  | some (pre, rest) =>
    match pre with
    | [] => ([], l)
    | c :: _ =>
      if c.isAlpha && pre.all schemeChar then (pre.map asciiLower, rest) else ([], l)

/-- Delimiters ending the netloc in `_splitnetloc`. -/
def netlocDelim (c : Char) : Bool :=
  c == '/' || c == '?' || c == '#'

/-- Netloc detection of `urlsplit`: present only after a leading `//`,
and extends to the next `/`, `?` or `#`. -/
def splitNetloc : List Char → List Char × List Char
  | '/' :: '/' :: rest =>
    (rest.takeWhile (fun c => !netlocDelim c), rest.dropWhile (fun c => !netlocDelim c))
  | l => ([], l)

/-- Fragment split of `urlsplit`: everything after the first `#`. -/
def splitFragment (l : List Char) : List Char × List Char :=
  match splitFirst (· == '#') l with
  | none => (l, [])
  | some (a, b) => (a, b)

/-- Query split of `urlsplit`: everything after the first `?`. -/
def splitQuery (l : List Char) : List Char × List Char :=
  match splitFirst (· == '?') l with
  | none => (l, [])
  | some (a, b) => (a, b)

/-- Schemes for which `urlparse` separates path parameters
(`uses_params` in `urllib.parse`). -/
def usesParamsSchemes : List String :=
  ["", "ftp", "hdl", "prospero", "http", "imap", "https", "shttp", "rtsp",
   "rtspu", "sip", "sips", "mms", "sftp", "tel"]

/-- Parameter split of `urlparse` (`_splitparams`): the part of the last
path segment after a `;` becomes the params component. -/
def splitParams (path : List Char) : List Char × List Char :=
  if path.contains '/' then
    let rev := path.reverse
    let afterLast := (rev.takeWhile (· ≠ '/')).reverse
    let beforeLast := (rev.dropWhile (· ≠ '/')).reverse
    match splitFirst (· == ';') afterLast with
    | none => (path, [])
    | some (a, b) => (beforeLast ++ a, b)
  else match splitFirst (· == ';') path with
    | none => (path, [])
    | some (a, b) => (a, b)

/-- Result of `urlparse`: the six URL components. -/
structure UrlParts where
  scheme : List Char
  netloc : List Char
  path : List Char
  par : List Char
  query : List Char
  fragment : List Char
deriving Repr, DecidableEq

/-- Model of `urllib.parse.urlparse` (with `allow_fragments=True`):
strip unsafe bytes, split scheme, netloc, fragment, query, and then the
path parameters when the scheme uses them. -/
def urlparse (l : List Char) : UrlParts :=
  let l0 := l.filter (fun c => !unsafeUrlByte c)
  let sr := splitScheme l0
  let nr := splitNetloc sr.2
  let fr := splitFragment nr.2
  let qr := splitQuery fr.1
  let pp :=
    if usesParamsSchemes.contains (String.mk sr.1) && qr.1.contains ';' then
      splitParams qr.1
    else (qr.1, [])
  ⟨sr.1, nr.1, pp.1, pp.2, qr.2, fr.2⟩

/-- Model of `urllib.parse.urlunparse` composed with `urlunsplit`. -/
def urlunparse (u : UrlParts) : List Char :=
  let url := if u.par ≠ [] then u.path ++ ';' :: u.par else u.path
  let url :=
    if u.netloc ≠ [] ∨ url.take 2 = ['/', '/'] then
      let url' := if url ≠ [] ∧ url.head? ≠ some '/' then '/' :: url else url
      '/' :: '/' :: (u.netloc ++ url')
    else url
  let url := if u.scheme ≠ [] then u.scheme ++ ':' :: url else url
  let url := if u.query ≠ [] then url ++ '?' :: u.query else url
  if u.fragment ≠ [] then url ++ '#' :: u.fragment else url

/-- Python `rstrip` with a slash argument: drop every trailing slash. -/
def rstripSlash (l : List Char) : List Char :=
  (l.reverse.dropWhile (· == '/')).reverse

/-- Model of `canonicalize_url` from `utils/utils.py`: falsy (empty) input
is returned unchanged; otherwise the URL is reparsed, reassembled keeping
only scheme, netloc and path, and stripped of trailing slashes. -/
def canonicalize_url (url : String) : String :=
  if url = "" then url
  else
    let parts := urlparse url.data
    let clean := urlunparse ⟨parts.scheme, parts.netloc, parts.path, [], [], []⟩
    String.mk (rstripSlash clean)

/-! ## Content normalizer: model of `utils/content_cleaner.py` `ContentCleaner.clean_html`

The external HTML parser (BeautifulSoup) is modelled by its outcome: either
a parse failure (the `except` branch of `clean_html`) or a `ParsedDoc`
holding the data the cleaner extracts from the soup after decomposing
header/footer/nav/script/style/anchor elements: the `get_text(strip=True)`
value of each `<p>` element, and the whole-document `get_text()` value.
The wrapper logic around the parser is translated from the source. -/

/-- Whitespace characters stripped by Python `str.strip` (ASCII range;
exotic Unicode whitespace is outside the modelled character set). -/
def pySpace (c : Char) : Bool :=
  c == ' ' || c == '\t' || c == '\n' || c == '\r' || c == '\x0b' || c == '\x0c'

/-- Line-break characters of Python `str.splitlines` (ASCII range; the rare
breaks `\x1c`-`\x1e`, `\x85`, ` `, ` ` are outside the modelled
character set). -/
def lineBreakChar (c : Char) : Bool :=
  c == '\n' || c == '\r' || c == '\x0b' || c == '\x0c'

/-- Python `str.strip()` on a character list: drop leading and trailing
whitespace. -/
def stripChars (l : List Char) : List Char :=
  ((l.dropWhile pySpace).reverse.dropWhile pySpace).reverse

/-- Worker for `str.splitlines`: accumulates the current line (reversed)
and splits at line breaks, treating a `\r\n` pair as a single break; a
trailing break produces no empty final line. -/
def splitLinesAux : List Char → List Char → List (List Char)
  | acc, [] => if acc = [] then [] else [acc.reverse]
  | acc, '\r' :: '\n' :: rest => acc.reverse :: splitLinesAux [] rest
  | acc, c :: rest =>
    if lineBreakChar c then acc.reverse :: splitLinesAux [] rest
    else splitLinesAux (c :: acc) rest

/-- Python `str.splitlines` on a character list. -/
def pySplitlines (l : List Char) : List (List Char) :=
  splitLinesAux [] l

/-- Python `sep.join(parts)` on character lists. -/
def joinLines (sep : List Char) : List (List Char) → List Char
  | [] => []
  | [p] => p
  | p :: rest => p ++ sep ++ joinLines sep rest

/-- Python slicing `s[:n]` for a non-negative bound: the first `n`
characters. -/
def pyTake (n : Nat) (s : String) : String :=
  String.mk (s.data.take n)

/-- Outcome of parsing the input markup: the per-paragraph
`get_text(strip=True)` values (in document order) and the whole-document
`get_text()` value, both taken after the unwanted elements were
decomposed. -/
structure ParsedDoc where
  pTexts : List String
  docText : String
deriving Repr, DecidableEq

/-- The paragraph branch of `clean_html`: join the non-empty paragraph
texts with a blank line. -/
def paragraphText (pTexts : List String) : String :=
  String.mk (joinLines ['\n', '\n'] ((pTexts.map String.data).filter (fun t => t ≠ [])))

/-- The fallback branch of `clean_html` on a character list: keep the
stripped non-empty lines, joined by single newlines. -/
def fallbackChars (l : List Char) : List Char :=
  joinLines ['\n'] (((pySplitlines l).map stripChars).filter (fun t => t ≠ []))

/-- The fallback branch of `clean_html`: keep the stripped non-empty lines
of the whole-document text, joined by single newlines. -/
def fallbackText (docText : String) : String :=
  String.mk (fallbackChars docText.data)

/-- Model of `ContentCleaner.clean_html`: on parser failure return the raw
input truncated to `maxLength`; otherwise use the paragraph branch when
any `<p>` element exists, else the fallback branch, truncated to
`maxLength`. -/
def clean_html (maxLength : Nat) (parsed : Option ParsedDoc) (raw : String) : String :=
  match parsed with
  | none => pyTake maxLength raw
  | some d =>
    if d.pTexts ≠ [] then pyTake maxLength (paragraphText d.pTexts)
    else pyTake maxLength (fallbackText d.docText)

/-- Parse outcome of BeautifulSoup with `html.parser` on markup-free plain
text: no `<p>` elements are found and `get_text()` is the text itself.
Used to model re-cleaning the output of a previous clean. -/
def plainParse (s : String) : ParsedDoc :=
  ⟨[], s⟩

/-! ## Matching engine: model of `utils/matcher.py` `JobMatcher`

The TF-IDF cosine similarity (spacy + scikit-learn) and the Azure LLM call
are external collaborators; they are modelled by their outcomes.  Scores
are modelled as rationals; Python `round(x, 2)` is modelled as rounding
`100 x` to the nearest integer (the banker-rounding tie behaviour of
binary floats at exact half-cents is not distinguished). -/

/-- Outcome of the TF-IDF stage of `basic_match_score`: the vectorizer
raised, one of the preprocessed texts was empty, or a cosine similarity
value was computed. -/
inductive TfidfOutcome
  | failed
  | emptyText
  | sim (v : ℚ)
deriving Repr

/-- Python `round(x, 2)` over the modelled rationals. -/
def round2 (x : ℚ) : ℚ :=
  ((round (x * 100) : ℤ) : ℚ) / 100

/-- Model of `basic_match_score`: zero on failure or empty text, else the
cosine similarity scaled to the 0-10 range and rounded to two decimals. -/
def basic_match_score : TfidfOutcome → ℚ
  | .failed => 0
  | .emptyText => 0
  | .sim v => round2 (v * 10)

/-- The structured analysis produced by `_parse_llm_response`. -/
structure LlmAnalysis where
  score : ℚ
  reasons : List String
  suggestions : List String
deriving Repr, DecidableEq

/-- Outcome of the semantic stage (`_llm_evaluation` together with
`_parse_llm_response`): `failed` covers call errors, empty responses and
unparsable output (every path on which the code returns `None`);
`parsed` carries the extracted fields before score clamping. -/
inductive LlmOutcome
  | failed
  | parsed (score : ℚ) (reasons suggestions : List String)
deriving Repr

/-- Model of the semantic stage result: `None` on failure, otherwise the
analysis with the score clamped into the 0-10 range as `_parse_llm_response`
does via `min(max(float(score), 0), 10)`. -/
def llmEvaluation : LlmOutcome → Option LlmAnalysis
  | .failed => none
  | .parsed s r g => some ⟨min (max s 0) 10, r, g⟩

/-- Model of `calculate_match_score`: always computes the TF-IDF score
first; with `use_llm` and a successful semantic stage the final score is
the `0.1 / 0.9` blend and the analysis is returned; on any semantic
failure the TF-IDF score is returned with an analysis carrying empty
reasons and suggestions. -/
def calculate_match_score (t : TfidfOutcome) (llm : LlmOutcome) (use_llm : Bool) :
    ℚ × Option LlmAnalysis :=
  let tfidfScore := basic_match_score t
  let defaultResult : LlmAnalysis := ⟨tfidfScore, [], []⟩
  if !use_llm then (tfidfScore, none)
  else
    match llmEvaluation llm with
    | some r => (tfidfScore * (1 / 10) + r.score * (9 / 10), some r)
    | none => (tfidfScore, some defaultResult)

/-! ## Scraping phase: model of `job_processing/core.py`

`_process_linkedin_jobs` is modelled as a fold over the scraped postings
(the outer loop over target URLs concatenates the per-URL lists; an empty
list is skipped, which the fold does on its own).  The Airtable store is
modelled by the list of values held in its "Job Link" column:
`get_existing_job_links` returns those values, `job_exists` is an exact
match against them (an `EQ(Field("Job Link"), link)` formula), and
`create_job_record` appends the "Job Link" value of the normalized
payload — which for the LinkedIn path is the RAW `job_url` produced by
`normalize_job_data`, not the canonicalized one.  A `create_job_record`
failure (the method returns `None`) is modelled by the `createOk` oracle,
indexed by the number of create calls made so far. -/

/-- One scraped posting; only the `job_url` field takes part in the
deduplication logic (the remaining normalized fields are payload). -/
structure ScrapedJob where
  job_url : String
deriving Repr, DecidableEq

/-- Loop state of `_process_linkedin_jobs`: the in-memory canonicalized
link set, the store column, the links of the records created by this run
(in order), the new-job counter and the number of create calls made. -/
structure LinkedInState where
  existingLinks : List String
  store : List String
  createdLinks : List String
  newJobs : Nat
  calls : Nat
deriving Repr, DecidableEq

/-- One iteration of the inner loop of `_process_linkedin_jobs`:
canonicalize the scraped URL, skip falsy URLs and members of the
in-memory set, skip (and remember) links the store already has, and
otherwise create a record carrying the raw URL. -/
def processLinkedInJob (createOk : Nat → Bool) (st : LinkedInState) (job : ScrapedJob) :
    LinkedInState :=
  let jobUrl := canonicalize_url job.job_url
  if jobUrl = "" ∨ st.existingLinks.contains jobUrl then st
  else if st.store.contains jobUrl then
    { st with existingLinks := jobUrl :: st.existingLinks }
  else if createOk st.calls then
    { st with store := job.job_url :: st.store,
              createdLinks := st.createdLinks ++ [job.job_url],
              newJobs := st.newJobs + 1,
              calls := st.calls + 1 }
  else { st with calls := st.calls + 1 }

/-- Model of `_process_linkedin_jobs`: seed the in-memory set with the
canonicalized store links, then process every scraped posting. -/
def processLinkedInJobs (createOk : Nat → Bool) (storeLinks : List String)
    (jobs : List ScrapedJob) : LinkedInState :=
  jobs.foldl (processLinkedInJob createOk)
    ⟨storeLinks.map canonicalize_url, storeLinks, [], 0, 0⟩

/-- The three scraping sources fanned out by `process_jobs`. -/
inductive JobSource
  | linkedin
  | seek
  | additional
deriving Repr, DecidableEq

/-- The fixed source list of `process_jobs` (the keys of its mapping). -/
def allSources : List JobSource :=
  [.linkedin, .seek, .additional]

/-- The count recorded for one source by the `as_completed` loop of
`process_jobs`: the returned value on success, zero when the task raised
(the exception is caught and logged). -/
def sourceCount (outcome : JobSource → Except String Nat) (s : JobSource) : Nat :=
  match outcome s with
  | .ok n => n
  | .error _ => 0

/-- The total over all sources (`sum(results.values())`). -/
def totalNewJobs (outcome : JobSource → Except String Nat) : Nat :=
  (allSources.map (sourceCount outcome)).sum

/-- Model of the tail of `process_jobs`: run the matching phase only when
some source contributed a new posting, else return the empty result. -/
def process_jobs {α : Type} (outcome : JobSource → Except String Nat)
    (matchPhaseResult : List α) : List α :=
  if 0 < totalNewJobs outcome then matchPhaseResult else []

/-! ## Matching phase: model of `_process_job_matches`

The loop body over unprocessed records is modelled per record; the run is
the concatenation over the record list (no state crosses iterations other
than the returned result list, which the observed events do not depend
on).  External collaborators are oracles: `scoreOf` is
`matcher.calculate_match_score` (`none` models the caught `ValueError`),
`gen` is `generate_targeted_cv` (`Except.error` models the caught
exception; `Except.ok` carries the CV URL, possibly `none` when creation
or upload failed).  The observable store and generator calls are recorded
as `MatchEvent`s in program order. -/

/-- The fields of one unprocessed Airtable record read by the loop. -/
structure JobFields where
  title : String
  desc : String
  link : String
  company : String
deriving Repr, DecidableEq

/-- Observable collaborator calls of the matching loop: an
`update_cv_info` persistence call (with score and CV URL argument), or a
`generate_targeted_cv` invocation. -/
inductive MatchEvent
  | persistMatch (link : String) (score : ℚ) (cvUrl : Option String)
  | generateCV (link : String)
deriving Repr, DecidableEq

/-- The record link an event refers to. -/
def eventLink : MatchEvent → String
  | .persistMatch l _ _ => l
  | .generateCV l => l

/-- Whether an event is a generation invocation for the given link. -/
def isGenerateFor (link : String) : MatchEvent → Bool
  | .generateCV l => l == link
  | _ => false

/-- One iteration of the `_process_job_matches` loop: skip empty
descriptions and failed score computations; otherwise persist the score
(CV URL `None`), and when the score reaches the threshold invoke
generation and, if it returns, persist again with its CV URL. -/
def processJobMatch (threshold : ℚ) (scoreOf : JobFields → Option (ℚ × LlmAnalysis))
    (gen : JobFields → Except String (Option String)) (r : JobFields) : List MatchEvent :=
  if r.desc = "" then []
  else
    match scoreOf r with
    | none => []
    | some (score, _analysis) =>
      if threshold ≤ score then
        match gen r with
        | .error _ => [.persistMatch r.link score none, .generateCV r.link]
        | .ok cvUrl =>
          [.persistMatch r.link score none, .generateCV r.link,
           .persistMatch r.link score cvUrl]
      else [.persistMatch r.link score none]

/-- Model of `_process_job_matches` over the unprocessed records. -/
def processJobMatches (threshold : ℚ) (scoreOf : JobFields → Option (ℚ × LlmAnalysis))
    (gen : JobFields → Except String (Option String)) (records : List JobFields) :
    List MatchEvent :=
  records.flatMap (processJobMatch threshold scoreOf gen)

/-! ## Session health monitor: model of `job_sources/linkedin_cookie_health.py`

Timestamps are modelled as integers (seconds); the browser probe
(`LinkedInJobScraper().has_valid_session`) is an oracle.  The
informational message strings and the `age_hours` field are carried only
where the claims observe them; whether a fresh probe ran is returned
explicitly so that "without re-probing" is stateable. -/

/-- Cookie health status (`CookieStatus` enum). -/
inductive CookieStatus
  | healthy
  | invalid
  | missing
  | untested
deriving Repr, DecidableEq

/-- Persisted probe cache (`cookies/session_status_cache.json`). -/
structure SessionCache where
  is_valid : Bool
  message : String
  tested_at : Int
deriving Repr, DecidableEq

/-- Model of `_is_cache_valid`: the cache exists and its age is below the
bound (in hours). -/
def cacheIsValid (now : Int) (maxAgeHours : Int) (cache : Option SessionCache) : Bool :=
  match cache with
  | none => false
  | some c => decide (now - c.tested_at < maxAgeHours * 3600)

/-- Outcome of a fresh browser probe: the session test ran and reported
validity, or the attempt itself raised. -/
inductive ProbeOutcome
  | ok (valid : Bool)
  | error (msg : String)
deriving Repr, DecidableEq

/-- Result of `test_cookie_session`: the validity verdict and message, the
cache state afterwards, and whether a fresh probe was performed. -/
structure SessionTestResult where
  is_valid : Bool
  message : String
  cache : Option SessionCache
  probed : Bool
deriving Repr, DecidableEq

/-- Model of `test_cookie_session`: without `force`, a young cached result
is returned as is; otherwise a fresh probe runs and its result is cached,
except that a probe error is returned as invalid without caching.  (The
`none` case under a valid cache is unreachable since `cacheIsValid none`
is false.) -/
def test_cookie_session (force : Bool) (now : Int) (cache : Option SessionCache)
    (probe : ProbeOutcome) : SessionTestResult :=
  if !force && cacheIsValid now 24 cache then
    match cache with
    | some c => ⟨c.is_valid, "[Cached] " ++ c.message, cache, false⟩
    | none => ⟨false, "", cache, false⟩
  else
    match probe with
    | .ok true =>
      let msg := "Session is valid and authenticated."
      ⟨true, msg, some ⟨true, msg, now⟩, true⟩
    | .ok false =>
      let msg := "Session is not authenticated. Cookies need refresh."
      ⟨false, msg, some ⟨false, msg, now⟩, true⟩
    | .error e =>
      ⟨false, "Could not test session: " ++ e, cache, true⟩

/-- Stored cookie metadata, as read by `get_cookie_info`; `saved_at` is
`none` when the timestamp fails to parse (the caught
`KeyError`/`ValueError`). -/
structure CookieInfo where
  saved_at : Option Int
  cookie_count : Nat
deriving Repr, DecidableEq

/-- The health dictionary built by `check_cookie_health` (informational
message and `age_hours` strings omitted). -/
structure HealthReport where
  status : CookieStatus
  session_valid : Bool
  needs_refresh : Bool
  age_days : Option Int
  cookie_count : Nat
  last_tested : Option Int
deriving Repr, DecidableEq

/-- Model of `check_cookie_health`: missing or unreadable cookies report
`missing`; with a session test requested, a forced or stale-cache path
runs `test_cookie_session` while a young cache is used directly; the
verdict maps to `healthy`/`invalid` and drives `needs_refresh`.  Returns
the report, the cache afterwards, and whether a fresh probe ran. -/
def check_cookie_health (hasCookies : Bool) (info : Option CookieInfo) (now : Int)
    (cache : Option SessionCache) (probe : ProbeOutcome)
    (use_session_test : Bool) (force_test : Bool) :
    HealthReport × Option SessionCache × Bool :=
  if !hasCookies then
    (⟨.missing, false, true, none, 0, none⟩, cache, false)
  else
    match info with
    | none => (⟨.missing, false, true, none, 0, none⟩, cache, false)
    | some i =>
      let ageDays := i.saved_at.map (fun sa => Int.fdiv (now - sa) 86400)
      if use_session_test then
        let res :=
          if force_test || !cacheIsValid now 24 cache then
            test_cookie_session force_test now cache probe
          else
            match cache with
            | some c => ⟨c.is_valid, c.message, cache, false⟩
            | none => ⟨false, "", cache, false⟩
        let lastTested := res.cache.map (fun c => c.tested_at)
        if res.is_valid then
          (⟨.healthy, true, false, ageDays, i.cookie_count, lastTested⟩, res.cache, res.probed)
        else
          (⟨.invalid, false, true, ageDays, i.cookie_count, lastTested⟩, res.cache, res.probed)
      else
        (⟨.untested, false, false, ageDays, i.cookie_count, none⟩, cache, false)

/-! ## Task/progress store: model of `api/routes/jobs.py`

`_read_tasks` opens the shared file, takes a shared `flock`, parses, and
unlocks; `_write_tasks` opens for writing, takes an exclusive `flock`,
dumps, and unlocks; `_update_task` composes the two around an in-memory
modification.  The locking behaviour is modelled as a sequence of atomic
actions interpreted by a small lock machine over two concurrent update
transactions.  Task payloads are simplified to a single numeric field
(the value being written); the surrounding JSON dictionary is an
association list keyed by task id. -/

/-- Atomic actions of the file-locking protocol. -/
inductive LockAction
  | acquireShared
  | releaseShared
  | acquireExclusive
  | releaseExclusive
  | readFile
  | writeFile
deriving Repr, DecidableEq

/-- Action sequence of `_read_tasks`. -/
def readTasksProg : List LockAction :=
  [.acquireShared, .readFile, .releaseShared]

/-- Action sequence of `_write_tasks`. -/
def writeTasksProg : List LockAction :=
  [.acquireExclusive, .writeFile, .releaseExclusive]

/-- Action sequence of `_update_task`: a `_read_tasks` call, the in-memory
modification, then a `_write_tasks` call. -/
def updateTaskProg : List LockAction :=
  readTasksProg ++ writeTasksProg

/-- Scans a program tracking the shared-lock depth; true when every
`readFile` happens while the shared lock is held. -/
def readsHoldShared : Nat → List LockAction → Bool
  | _, [] => true
  | d, a :: rest =>
    match a with
    | .acquireShared => readsHoldShared (d + 1) rest
    | .releaseShared => readsHoldShared (d - 1) rest
    | .readFile => decide (0 < d) && readsHoldShared d rest
    | _ => readsHoldShared d rest

/-- Scans a program tracking the exclusive-lock depth; true when every
`writeFile` happens while the exclusive lock is held. -/
def writesHoldExclusive : Nat → List LockAction → Bool
  | _, [] => true
  | d, a :: rest =>
    match a with
    | .acquireExclusive => writesHoldExclusive (d + 1) rest
    | .releaseExclusive => writesHoldExclusive (d - 1) rest
    | .writeFile => decide (0 < d) && writesHoldExclusive d rest
    | _ => writesHoldExclusive d rest

/-- Scans a program tracking the exclusive-lock depth; true when both the
read and the write of the cycle happen while the exclusive lock is held —
the discipline the specification ascribes to writers. -/
def rmwHoldsExclusive : Nat → List LockAction → Bool
  | _, [] => true
  | d, a :: rest =>
    match a with
    | .acquireExclusive => rmwHoldsExclusive (d + 1) rest
    | .releaseExclusive => rmwHoldsExclusive (d - 1) rest
    | .readFile => decide (0 < d) && rmwHoldsExclusive d rest
    | .writeFile => decide (0 < d) && rmwHoldsExclusive d rest
    | _ => rmwHoldsExclusive d rest

/-- Python dict-style update of one task entry in the association list
(`tasks[task_id].update(updates)` simplified to one numeric field). -/
def updateAssoc (id : String) (v : Nat) (tasks : List (String × Nat)) : List (String × Nat) :=
  tasks.map (fun kv => if kv.1 = id then (kv.1, v) else kv)

/-- One in-flight `_update_task(id, v)` transaction: program counter into
`updateTaskProg` and the locally parsed task dictionary. -/
structure UpdRun where
  taskId : String
  value : Nat
  pc : Nat
  localTasks : List (String × Nat)
deriving Repr, DecidableEq

/-- The shared system: the task file contents, the `flock` state (number
of shared holders, exclusive holder flag) and two update transactions. -/
structure LockSys where
  file : List (String × Nat)
  shCount : Nat
  exHeld : Bool
  thr1 : UpdRun
  thr2 : UpdRun
deriving Repr, DecidableEq

/-- Advance one transaction in `doStep`: the next action of
`updateTaskProg` runs if the `flock` semantics allow it (shared excluded
by exclusive; exclusive excluded by either), else the step is refused. -/
def stepRun (sys : LockSys) (t : UpdRun) : Option (UpdRun × List (String × Nat) × Nat × Bool) :=
  match updateTaskProg.get? t.pc with
  | none => none
  | some a =>
    match a with
    | .acquireShared =>
      if sys.exHeld then none
      else some ({ t with pc := t.pc + 1 }, sys.file, sys.shCount + 1, sys.exHeld)
    | .releaseShared =>
      if sys.shCount = 0 then none
      else some ({ t with pc := t.pc + 1 }, sys.file, sys.shCount - 1, sys.exHeld)
    | .acquireExclusive =>
      if sys.exHeld ∨ 0 < sys.shCount then none
      else some ({ t with pc := t.pc + 1 }, sys.file, sys.shCount, true)
    | .releaseExclusive =>
      if sys.exHeld then some ({ t with pc := t.pc + 1 }, sys.file, sys.shCount, false)
      else none
    | .readFile =>
      some ({ t with pc := t.pc + 1, localTasks := sys.file }, sys.file, sys.shCount, sys.exHeld)
    | .writeFile =>
      some ({ t with pc := t.pc + 1 },
        updateAssoc t.taskId t.value t.localTasks, sys.shCount, sys.exHeld)

/-- One scheduler step: run the next action of the first (`true`) or
second (`false`) transaction. -/
def doStep (sys : LockSys) (first : Bool) : Option LockSys :=
  if first then
    match stepRun sys sys.thr1 with
    | none => none
    | some (t, f, sh, ex) => some { sys with thr1 := t, file := f, shCount := sh, exHeld := ex }
  else
    match stepRun sys sys.thr2 with
    | none => none
    | some (t, f, sh, ex) => some { sys with thr2 := t, file := f, shCount := sh, exHeld := ex }

/-- Run a schedule of interleaved steps; `none` when any step was refused
by the lock semantics. -/
def runSchedule (sys : LockSys) : List Bool → Option LockSys
  | [] => some sys
  | b :: rest =>
    match doStep sys b with
    | none => none
    | some s => runSchedule s rest

/-- The status-relevant fields of one stored search task. -/
structure TaskRecord where
  status : String
  progress : Nat
  message : String
  results_count : Option Nat
deriving Repr, DecidableEq

/-- Model of the task file contents for the status route: absent, holding
unparsable JSON, or a dictionary of task records. -/
inductive TaskStoreFile
  | absent
  | corrupt
  | stored (tasks : List (String × TaskRecord))

/-- Model of `_read_tasks`: a missing file and a `JSONDecodeError`/`IOError`
both yield the empty dictionary. -/
def read_tasks : TaskStoreFile → List (String × TaskRecord)
  | .absent => []
  | .corrupt => []
  | .stored tasks => tasks

/-- Model of `_get_task`: dictionary lookup on the parsed tasks. -/
def get_task (f : TaskStoreFile) (id : String) : Option TaskRecord :=
  (read_tasks f).lookup id

/-- Response of the status route. -/
structure SearchStatusResponse where
  task_id : String
  status : String
  progress : Nat
  message : String
  results_count : Option Nat
deriving Repr, DecidableEq

/-- Model of `get_search_status`: an absent task id raises
`HTTPException(404)`, modelled as the error branch carrying the HTTP
status code; otherwise the stored fields are returned. -/
def get_search_status (f : TaskStoreFile) (id : String) : Except Nat SearchStatusResponse :=
  match get_task f id with
  | none => .error 404
  | some t => .ok ⟨id, t.status, t.progress, t.message, t.results_count⟩

/-! ## Helper lemmas -/

/-- Truncation bound: Python slicing `s[:n]` yields at most `n` characters. -/
theorem pyTake_length_le (n : Nat) (s : String) : (pyTake n s).length ≤ n :=
  List.length_take_le n s.data

/-- Summing per-source counts equals summing only over successful sources:
a failed source contributes zero. -/
theorem sum_sourceCount_filter (outcome : JobSource → Except String Nat) :
    ∀ L : List JobSource,
      (L.map (sourceCount outcome)).sum
        = ((L.filter (fun s => (outcome s).isOk)).map (sourceCount outcome)).sum := by
  intro L
  induction L with
  | nil => rfl
  | cons s t ih =>
    by_cases h : (outcome s).isOk
    · simp [List.filter_cons, h, ih]
    · have h0 : sourceCount outcome s = 0 := by
        unfold sourceCount
        cases he : outcome s with
        | ok n => rw [he] at h; simp [Except.isOk, Except.toBool] at h
        | error e => rfl
      simp [List.filter_cons, h, ih, h0]

/-! ## Claim C10 -/

/-- C10: for every task id, an absent task file and an unparsable task
file both read as the empty mapping, so the status route resolves to the
distinguishable 404 not-found outcome rather than raising or returning a
partially-read state. -/
theorem c10_absent_or_corrupt_store_is_404 (id : String) :
    read_tasks .absent = [] ∧ read_tasks .corrupt = [] ∧
    get_search_status .absent id = .error 404 ∧
    get_search_status .corrupt id = .error 404 :=
  ⟨rfl, rfl, rfl, rfl⟩

/-! ## Claim C4 -/

/-- C4: for every parser outcome, input and bound `N`, `clean_html`
returns a string of length at most `N` (it is a total function, so it
never raises), and on a parse failure it returns the raw input truncated
to `N` characters. -/
theorem c4_clean_html_bounded_and_total (N : Nat) (parsed : Option ParsedDoc) (raw : String) :
    (clean_html N parsed raw).length ≤ N ∧ clean_html N none raw = pyTake N raw := by
  refine ⟨?_, rfl⟩
  cases parsed with
  | none => exact pyTake_length_le N raw
  | some d =>
    by_cases h : d.pTexts = [] <;> simp [clean_html, h, pyTake_length_le]

/-! ## Claim C9 -/

/-- C9 counterexample: the `_update_task` action sequence does not hold
the exclusive lock across its read-modify-write cycle (its read runs at
exclusive depth zero), and a lock-respecting interleaving of two update
transactions loses the first update: both transactions complete, yet the
final file still holds value 0 for task "a" although its updater wrote 1. -/
theorem c9_update_not_locked_counterexample :
    rmwHoldsExclusive 0 updateTaskProg = false ∧
    runSchedule
      ⟨[("a", 0), ("b", 0)], 0, false, ⟨"a", 1, 0, []⟩, ⟨"b", 1, 0, []⟩⟩
      [true, true, true, false, false, false, true, true, true, false, false, false]
    = some ⟨[("a", 0), ("b", 1)], 0, false, ⟨"a", 1, 6, [("a", 0), ("b", 0)]⟩,
        ⟨"b", 1, 6, [("a", 0), ("b", 0)]⟩⟩ := by
  exact ⟨by decide, by decide⟩

/-- C9 amended: readers hold the shared advisory lock while reading and
writers hold the exclusive advisory lock while writing, but an update
transaction holds no lock across its read-modify-write cycle, so a
lock-respecting interleaving of two concurrent updates can lose one
completed update. -/
theorem c9_lock_discipline_amended :
    readsHoldShared 0 readTasksProg = true ∧
    writesHoldExclusive 0 writeTasksProg = true ∧
    readsHoldShared 0 updateTaskProg = true ∧
    writesHoldExclusive 0 updateTaskProg = true ∧
    rmwHoldsExclusive 0 updateTaskProg = false ∧
    Option.map (fun s => ((s.file.lookup "a", s.file.lookup "b"), s.thr1.pc, s.thr2.pc))
      (runSchedule
        ⟨[("a", 0), ("b", 0)], 0, false, ⟨"a", 1, 0, []⟩, ⟨"b", 1, 0, []⟩⟩
        [true, true, true, false, false, false, true, true, true, false, false, false])
    = some ((some 0, some 1), 6, 6) := by
  refine ⟨by decide, by decide, by decide, by decide, by decide, by decide⟩

/-! ## Claim C7 -/

/-- C7: when one source adapter raises, its recorded count is zero, every
sibling adapter still contributes its own returned count, the total is
the sum over the successful adapters only, and the orchestrator behaves
exactly as if the failing source had returned zero new postings (the
exception is absorbed, not propagated). -/
theorem c7_adapter_failure_isolated (outcome : JobSource → Except String Nat)
    (s₀ : JobSource) (e : String) (hfail : outcome s₀ = .error e) :
    sourceCount outcome s₀ = 0 ∧
    (∀ s n, s ≠ s₀ → outcome s = .ok n → sourceCount outcome s = n) ∧
    totalNewJobs outcome
      = ((allSources.filter (fun s => (outcome s).isOk)).map (sourceCount outcome)).sum ∧
    (∀ (α : Type) (m : List α),
      process_jobs outcome m
        = process_jobs (fun s => if s = s₀ then .ok 0 else outcome s) m) := by
  have hzero : sourceCount outcome s₀ = 0 := by simp [sourceCount, hfail]
  refine ⟨hzero, ?_, sum_sourceCount_filter outcome allSources, ?_⟩
  · intro s n _ hok
    simp [sourceCount, hok]
  · intro α m
    have hpt : ∀ s, sourceCount (fun x => if x = s₀ then .ok 0 else outcome x) s
        = sourceCount outcome s := by
      intro s
      by_cases hs : s = s₀
      · subst hs; simp [sourceCount, hfail]
      · simp [sourceCount, hs]
    have hfun : (sourceCount fun s => if s = s₀ then Except.ok 0 else outcome s)
        = sourceCount outcome := funext hpt
    unfold process_jobs totalNewJobs
    rw [hfun]

/-- C7 witness: the spec scenario with three adapters returning 5 new
postings, an exception, and 2 new postings. -/
theorem c7_adapter_failure_isolated_witness :
    sourceCount (fun s => match s with
      | .linkedin => Except.ok 5
      | .seek => Except.error "navigation timeout"
      | .additional => Except.ok 2) .seek = 0 ∧
    totalNewJobs (fun s => match s with
      | .linkedin => Except.ok 5
      | .seek => Except.error "navigation timeout"
      | .additional => Except.ok 2)
      = ((allSources.filter (fun s => ((fun s => match s with
          | JobSource.linkedin => Except.ok 5
          | JobSource.seek => Except.error "navigation timeout"
          | JobSource.additional => Except.ok 2) s).isOk)).map
            (sourceCount (fun s => match s with
              | .linkedin => Except.ok 5
              | .seek => Except.error "navigation timeout"
              | .additional => Except.ok 2))).sum :=
  ⟨(c7_adapter_failure_isolated _ .seek "navigation timeout" rfl).1,
   (c7_adapter_failure_isolated _ .seek "navigation timeout" rfl).2.2.1⟩

/-! ## Claim C8 -/

/-- C8: with `force_test=false` and a cached probe result younger than 24
hours, `check_cookie_health` returns the cached verdict without
re-probing; with no persisted cookies it reports `missing` with
`needs_refresh`; on a stale cache a failed probe yields `invalid` with
`needs_refresh` and a successful probe yields `healthy` without it. -/
theorem c8_cookie_health_cases (now : Int) (cache : Option SessionCache)
    (info : CookieInfo) (probe : ProbeOutcome) :
    (∀ c, cache = some c → cacheIsValid now 24 cache = true →
      check_cookie_health true (some info) now cache probe true false
        = (⟨if c.is_valid then .healthy else .invalid, c.is_valid, !c.is_valid,
            info.saved_at.map (fun sa => Int.fdiv (now - sa) 86400),
            info.cookie_count, some c.tested_at⟩, some c, false)) ∧
    ((check_cookie_health false (some info) now cache probe true false).1.status
        = .missing ∧
      (check_cookie_health false (some info) now cache probe true false).1.needs_refresh
        = true) ∧
    (cacheIsValid now 24 cache = false → probe = .ok false →
      (check_cookie_health true (some info) now cache probe true false).1.status
          = .invalid ∧
        (check_cookie_health true (some info) now cache probe true false).1.needs_refresh
          = true) ∧
    (cacheIsValid now 24 cache = false → probe = .ok true →
      (check_cookie_health true (some info) now cache probe true false).1.status
          = .healthy ∧
        (check_cookie_health true (some info) now cache probe true false).1.needs_refresh
          = false) := by
  refine ⟨?_, ?_, ?_, ?_⟩
  · intro c hc hvalid
    subst hc
    cases hb : c.is_valid <;>
      simp [check_cookie_health, hvalid, hb]
  · constructor <;> simp [check_cookie_health]
  · intro hstale hprobe
    subst hprobe
    constructor <;>
      simp [check_cookie_health, test_cookie_session, hstale]
  · intro hstale hprobe
    subst hprobe
    constructor <;>
      simp [check_cookie_health, test_cookie_session, hstale]

/-- C8 witness: a concrete young cache is returned without probing, and on
an empty cache a failed and a successful probe map to `invalid` and
`healthy`. -/
theorem c8_cookie_health_cases_witness :
    check_cookie_health true (some ⟨some 0, 3⟩) 1000 (some ⟨true, "ok", 500⟩)
      (.ok false) true false
      = (⟨.healthy, true, false, some 0, 3, some 500⟩, some ⟨true, "ok", 500⟩, false) ∧
    (check_cookie_health true (some ⟨some 0, 3⟩) 1000 none (.ok false) true false).1.status
      = .invalid ∧
    (check_cookie_health true (some ⟨some 0, 3⟩) 1000 none (.ok true) true false).1.status
      = .healthy := by
  refine ⟨?_, ?_, ?_⟩
  · exact (c8_cookie_health_cases 1000 (some ⟨true, "ok", 500⟩) ⟨some 0, 3⟩
      (.ok false)).1 ⟨true, "ok", 500⟩ rfl (by decide)
  · exact ((c8_cookie_health_cases 1000 none ⟨some 0, 3⟩ (.ok false)).2.2.1
      (by decide) rfl).1
  · exact ((c8_cookie_health_cases 1000 none ⟨some 0, 3⟩ (.ok true)).2.2.2
      (by decide) rfl).1

/-! ## Claim C3 -/

/-- Bounds of the TF-IDF stage: with a cosine similarity in the unit
interval, `basic_match_score` lands in the 0-10 range. -/
theorem basic_match_score_bounds (t : TfidfOutcome)
    (hb : ∀ v, t = .sim v → 0 ≤ v ∧ v ≤ 1) :
    0 ≤ basic_match_score t ∧ basic_match_score t ≤ 10 := by
  cases t with
  | failed => norm_num [basic_match_score]
  | emptyText => norm_num [basic_match_score]
  | sim v =>
    obtain ⟨h0, h1⟩ := hb v rfl
    unfold basic_match_score round2
    have hlow : (0 : ℤ) ≤ round (v * 10 * 100) := by
      rw [round_eq]
      exact Int.le_floor.mpr (by push_cast; linarith)
    have hhigh : round (v * 10 * 100) ≤ (1000 : ℤ) := by
      rw [round_eq]
      have : ⌊v * 10 * 100 + 1 / 2⌋ < (1001 : ℤ) :=
        Int.floor_lt.mpr (by push_cast; linarith)
      omega
    constructor
    · show 0 ≤ ((round (v * 10 * 100) : ℤ) : ℚ) / 100
      have hc : (0 : ℚ) ≤ ((round (v * 10 * 100) : ℤ) : ℚ) := by exact_mod_cast hlow
      linarith
    · show ((round (v * 10 * 100) : ℤ) : ℚ) / 100 ≤ 10
      have hc : ((round (v * 10 * 100) : ℤ) : ℚ) ≤ 1000 := by exact_mod_cast hhigh
      linarith

/-- C3: with the cosine similarity in the unit interval, the score
returned by `calculate_match_score` always lies in the 0-10 range; when
the semantic stage succeeds it equals the `0.1 lexical + 0.9 semantic`
blend (the semantic score being the clamped parsed value); when the
semantic stage fails the lexical score is returned alone, with an
analysis carrying empty reasons and suggestions. -/
theorem c3_match_score_blend_and_fallback (t : TfidfOutcome) (llm : LlmOutcome)
    (hb : ∀ v, t = .sim v → 0 ≤ v ∧ v ≤ 1) :
    (0 ≤ (calculate_match_score t llm true).1 ∧ (calculate_match_score t llm true).1 ≤ 10) ∧
    (∀ s r g, llm = .parsed s r g →
      (calculate_match_score t llm true).1
        = basic_match_score t * (1 / 10) + min (max s 0) 10 * (9 / 10)) ∧
    (llm = .failed →
      calculate_match_score t llm true
        = (basic_match_score t, some ⟨basic_match_score t, [], []⟩)) := by
  obtain ⟨hB0, hB10⟩ := basic_match_score_bounds t hb
  refine ⟨?_, ?_, ?_⟩
  · cases llm with
    | failed =>
      simp only [calculate_match_score, llmEvaluation]
      constructor <;> simp <;> linarith
    | parsed s r g =>
      simp only [calculate_match_score, llmEvaluation]
      have hs0 : 0 ≤ min (max s 0) 10 := le_min (le_max_right s 0) (by norm_num)
      have hs10 : min (max s 0) 10 ≤ 10 := min_le_right _ _
      constructor <;> simp <;> linarith
  · intro s r g h
    subst h
    simp [calculate_match_score, llmEvaluation]
  · intro h
    subst h
    simp [calculate_match_score, llmEvaluation]

/-- C3 witness: a similarity of one half and a parsed semantic score of 8
satisfy the hypotheses; the score is in range and equals the blend. -/
theorem c3_match_score_blend_and_fallback_witness :
    (0 ≤ (calculate_match_score (.sim (1 / 2)) (.parsed 8 [] []) true).1 ∧
      (calculate_match_score (.sim (1 / 2)) (.parsed 8 [] []) true).1 ≤ 10) ∧
    (calculate_match_score (.sim (1 / 2)) (.parsed 8 [] []) true).1
      = basic_match_score (.sim (1 / 2)) * (1 / 10) + min (max 8 0) 10 * (9 / 10) :=
  ⟨(c3_match_score_blend_and_fallback (.sim (1 / 2)) (.parsed 8 [] [])
      (fun v hv => by cases hv; norm_num)).1,
   (c3_match_score_blend_and_fallback (.sim (1 / 2)) (.parsed 8 [] [])
      (fun v hv => by cases hv; norm_num)).2.1 8 [] [] rfl⟩

/-! ## Claim C2 -/

/-- Every event the matching loop emits for a record carries that record
link. -/
theorem processJobMatch_eventLink (threshold : ℚ)
    (scoreOf : JobFields → Option (ℚ × LlmAnalysis))
    (gen : JobFields → Except String (Option String)) (r : JobFields) :
    ∀ e ∈ processJobMatch threshold scoreOf gen r, eventLink e = r.link := by
  intro e he
  by_cases hd : r.desc = ""
  · simp [processJobMatch, hd] at he
  · cases hs : scoreOf r with
    | none => simp [processJobMatch, hd, hs] at he
    | some p =>
      obtain ⟨score, a⟩ := p
      by_cases ht : threshold ≤ score
      · cases hg : gen r with
        | error msg =>
          simp [processJobMatch, hd, hs, ht, hg] at he
          rcases he with h | h <;> subst h <;> rfl
        | ok cv =>
          simp [processJobMatch, hd, hs, ht, hg] at he
          rcases he with h | h | h <;> subst h <;> rfl
      · simp [processJobMatch, hd, hs, ht] at he
        subst he; rfl

/-- A generation event for a link refers to that link. -/
theorem isGenerateFor_eventLink (link : String) (e : MatchEvent)
    (h : isGenerateFor link e = true) : eventLink e = link := by
  cases e with
  | persistMatch l sc cv => simp [isGenerateFor] at h
  | generateCV l => simpa [isGenerateFor, eventLink] using h

/-- For one record with a non-empty description and a computed score, the
loop emits exactly one generation event when the threshold is met and
none otherwise. -/
theorem processJobMatch_generate_count (threshold : ℚ)
    (scoreOf : JobFields → Option (ℚ × LlmAnalysis))
    (gen : JobFields → Except String (Option String)) (r : JobFields)
    (s : ℚ) (a : LlmAnalysis) (hd : r.desc ≠ "") (hs : scoreOf r = some (s, a)) :
    (processJobMatch threshold scoreOf gen r).countP (isGenerateFor r.link)
      = if threshold ≤ s then 1 else 0 := by
  by_cases ht : threshold ≤ s
  · cases hg : gen r <;>
      simp [processJobMatch, hd, hs, ht, hg, isGenerateFor, List.countP_cons]
  · simp [processJobMatch, hd, hs, ht, isGenerateFor, List.countP_cons]

/-- For one record with a non-empty description and a computed score, the
loop always emits the score persistence call. -/
theorem processJobMatch_persist_mem (threshold : ℚ)
    (scoreOf : JobFields → Option (ℚ × LlmAnalysis))
    (gen : JobFields → Except String (Option String)) (r : JobFields)
    (s : ℚ) (a : LlmAnalysis) (hd : r.desc ≠ "") (hs : scoreOf r = some (s, a)) :
    MatchEvent.persistMatch r.link s none ∈ processJobMatch threshold scoreOf gen r := by
  by_cases ht : threshold ≤ s
  · cases hg : gen r <;> simp [processJobMatch, hd, hs, ht, hg]
  · simp [processJobMatch, hd, hs, ht]

/-- C2: in the matching phase, every unprocessed posting with a non-empty
description and a computed match score has that score persisted, and the
document generator is invoked for it exactly once when the score reaches
the threshold and never otherwise. -/
theorem c2_match_phase_persist_and_generate (threshold : ℚ)
    (scoreOf : JobFields → Option (ℚ × LlmAnalysis))
    (gen : JobFields → Except String (Option String))
    (records : List JobFields) (r : JobFields) (s : ℚ) (a : LlmAnalysis)
    (hmem : r ∈ records) (hnodup : (records.map JobFields.link).Nodup)
    (hdesc : r.desc ≠ "") (hscore : scoreOf r = some (s, a)) :
    MatchEvent.persistMatch r.link s none
      ∈ processJobMatches threshold scoreOf gen records ∧
    (processJobMatches threshold scoreOf gen records).countP (isGenerateFor r.link)
      = if threshold ≤ s then 1 else 0 := by
  constructor
  · exact List.mem_flatMap.mpr
      ⟨r, hmem, processJobMatch_persist_mem threshold scoreOf gen r s a hdesc hscore⟩
  · obtain ⟨l₁, l₂, rfl⟩ := List.append_of_mem hmem
    rw [List.map_append, List.map_cons] at hnodup
    have h2 : (r.link :: l₂.map JobFields.link).Nodup := hnodup.of_append_right
    have hr2 : r.link ∉ l₂.map JobFields.link := (List.nodup_cons.mp h2).1
    have hdisj := List.disjoint_of_nodup_append hnodup
    have hr1 : r.link ∉ l₁.map JobFields.link :=
      fun hin => hdisj hin (List.mem_cons_self _ _)
    have hz : ∀ L : List JobFields, r.link ∉ L.map JobFields.link →
        (L.flatMap (processJobMatch threshold scoreOf gen)).countP
          (isGenerateFor r.link) = 0 := by
      intro L hL
      rw [List.countP_eq_zero]
      intro e he hgen
      obtain ⟨r', hr', he'⟩ := List.mem_flatMap.mp he
      have hl' := processJobMatch_eventLink threshold scoreOf gen r' e he'
      have hl := isGenerateFor_eventLink r.link e hgen
      refine hL ?_
      have : r.link = r'.link := by rw [← hl, hl']
      exact this ▸ List.mem_map_of_mem JobFields.link hr'
    unfold processJobMatches
    rw [List.flatMap_append, List.flatMap_cons, List.countP_append, List.countP_append,
      hz l₁ hr1, hz l₂ hr2,
      processJobMatch_generate_count threshold scoreOf gen r s a hdesc hscore]
    omega

/-- C2 witness: with threshold 7 over two concrete postings scoring 8.2
and 4.0, the 8.2 posting has its score persisted and generation invoked
exactly once, and the 4.0 posting never triggers generation. -/
theorem c2_match_phase_persist_and_generate_witness :
    MatchEvent.persistMatch "l1" (82 / 10) none
      ∈ processJobMatches 7
          (fun r => if r.link = "l1" then some (82 / 10, ⟨82 / 10, [], []⟩)
            else some (4, ⟨4, [], []⟩))
          (fun _ => .ok (some "http://cv.pdf"))
          [⟨"Eng", "d1", "l1", "Acme"⟩, ⟨"Ops", "d2", "l2", "Beta"⟩] ∧
    (processJobMatches 7
        (fun r => if r.link = "l1" then some (82 / 10, ⟨82 / 10, [], []⟩)
          else some (4, ⟨4, [], []⟩))
        (fun _ => .ok (some "http://cv.pdf"))
        [⟨"Eng", "d1", "l1", "Acme"⟩, ⟨"Ops", "d2", "l2", "Beta"⟩]).countP
      (isGenerateFor "l1") = (if (7 : ℚ) ≤ 82 / 10 then 1 else 0) ∧
    (processJobMatches 7
        (fun r => if r.link = "l1" then some (82 / 10, ⟨82 / 10, [], []⟩)
          else some (4, ⟨4, [], []⟩))
        (fun _ => .ok (some "http://cv.pdf"))
        [⟨"Eng", "d1", "l1", "Acme"⟩, ⟨"Ops", "d2", "l2", "Beta"⟩]).countP
      (isGenerateFor "l2") = (if (7 : ℚ) ≤ 4 then 1 else 0) := by
  refine ⟨?_, ?_, ?_⟩
  · exact (c2_match_phase_persist_and_generate 7 _ _ _
      ⟨"Eng", "d1", "l1", "Acme"⟩ (82 / 10) ⟨82 / 10, [], []⟩
      (by simp) (by decide) (by decide) (by norm_num)).1
  · exact (c2_match_phase_persist_and_generate 7 _ _ _
      ⟨"Eng", "d1", "l1", "Acme"⟩ (82 / 10) ⟨82 / 10, [], []⟩
      (by simp) (by decide) (by decide) (by norm_num)).2
  · exact (c2_match_phase_persist_and_generate 7 _ _ _
      ⟨"Ops", "d2", "l2", "Beta"⟩ 4 ⟨4, [], []⟩
      (by simp) (by decide) (by decide) (by decide)).2

/-! ## Claim C1 -/

/-- C1: at the concrete failing input — one scrape returning two postings
whose URLs differ only in their query string — the LinkedIn processing
loop creates TWO store records sharing the canonical URL
`http://x.com/a` within a single run, because the in-memory set is
never updated after a create and `job_exists` compares the canonical URL
against the RAW `Job Link` values that `normalize_job_data` persists.
The cross-run half of the claim does hold at this input: a later run,
seeded with the store the first run produced, adds nothing for a third
posting with the same canonical URL. -/
theorem c1_linkedin_duplicate_canonical_persisted_twice :
    (processLinkedInJobs (fun _ => true) []
      [⟨"http://x.com/a?utm=1"⟩, ⟨"http://x.com/a?utm=2"⟩]).createdLinks
      = ["http://x.com/a?utm=1", "http://x.com/a?utm=2"] ∧
    (processLinkedInJobs (fun _ => true) []
      [⟨"http://x.com/a?utm=1"⟩, ⟨"http://x.com/a?utm=2"⟩]).createdLinks.map
        canonicalize_url
      = ["http://x.com/a", "http://x.com/a"] ∧
    (processLinkedInJobs (fun _ => true) []
      [⟨"http://x.com/a?utm=1"⟩, ⟨"http://x.com/a?utm=2"⟩]).newJobs = 2 ∧
    (processLinkedInJobs (fun _ => true)
      ["http://x.com/a?utm=2", "http://x.com/a?utm=1"]
      [⟨"http://x.com/a?utm=3"⟩]).newJobs = 0 := by
  exact ⟨by decide, by decide, by decide, by decide⟩

/-! ## Claim C6 -/

/-- If `splitFirst` finds no match, no character satisfies the predicate. -/
theorem splitFirst_none_all (p : Char → Bool) :
    ∀ l : List Char, splitFirst p l = none → ∀ x ∈ l, p x = false := by
  intro l
  induction l with
  | nil => intro _ x hx; simp at hx
  | cons c cs ih =>
    intro h x hx
    simp only [splitFirst] at h
    by_cases hc : p c
    · simp [hc] at h
    · rw [if_neg hc] at h
      cases hsf : splitFirst p cs with
      | none =>
        rcases List.mem_cons.mp hx with rfl | hx'
        · simpa using hc
        · exact ih hsf x hx'
      | some ab =>
        rw [hsf] at h
        obtain ⟨a, b⟩ := ab
        simp at h

/-- A successful `splitFirst` decomposes the list around the first match,
and nothing before the match satisfies the predicate. -/
theorem splitFirst_some_spec (p : Char → Bool) :
    ∀ (l a b : List Char), splitFirst p l = some (a, b) →
      ∃ c, p c = true ∧ l = a ++ c :: b ∧ ∀ x ∈ a, p x = false := by
  intro l
  induction l with
  | nil => intro a b h; simp [splitFirst] at h
  | cons c cs ih =>
    intro a b h
    simp only [splitFirst] at h
    by_cases hc : p c
    · rw [if_pos hc] at h
      simp only [Option.some.injEq, Prod.mk.injEq] at h
      obtain ⟨ha, hb⟩ := h
      subst ha; subst hb
      exact ⟨c, hc, rfl, by simp⟩
    · rw [if_neg hc] at h
      cases hsf : splitFirst p cs with
      | none => rw [hsf] at h; simp at h
      | some ab =>
        obtain ⟨a', b'⟩ := ab
        rw [hsf] at h
        simp only [Option.some.injEq, Prod.mk.injEq] at h
        obtain ⟨ha, hb⟩ := h
        obtain ⟨c', hc', hdecomp, hbefore⟩ := ih a' b' hsf
        subst ha
        subst hb
        refine ⟨c', hc', by simp [hdecomp], ?_⟩
        intro x hx
        rcases List.mem_cons.mp hx with rfl | hx'
        · simpa using hc
        · exact hbefore x hx'

/-- The part before the first `#` contains no `#` and is part of the
input. -/
theorem splitFragment_fst_spec (l : List Char) :
    (∀ x ∈ (splitFragment l).1, x ≠ '#') ∧ (∀ x ∈ (splitFragment l).1, x ∈ l) := by
  unfold splitFragment
  cases hsf : splitFirst (· == '#') l with
  | none =>
    have h := splitFirst_none_all _ l hsf
    exact ⟨fun x hx => by simpa using h x hx, fun x hx => hx⟩
  | some ab =>
    obtain ⟨a, b⟩ := ab
    obtain ⟨c, _, hdecomp, hbefore⟩ := splitFirst_some_spec _ l a b hsf
    refine ⟨fun x hx => by simpa using hbefore x hx, fun x hx => ?_⟩
    rw [hdecomp]
    exact List.mem_append_left _ hx

/-- The part before the first `?` contains no `?` and is part of the
input. -/
theorem splitQuery_fst_spec (l : List Char) :
    (∀ x ∈ (splitQuery l).1, x ≠ '?') ∧ (∀ x ∈ (splitQuery l).1, x ∈ l) := by
  unfold splitQuery
  cases hsf : splitFirst (· == '?') l with
  | none =>
    have h := splitFirst_none_all _ l hsf
    exact ⟨fun x hx => by simpa using h x hx, fun x hx => hx⟩
  | some ab =>
    obtain ⟨a, b⟩ := ab
    obtain ⟨c, _, hdecomp, hbefore⟩ := splitFirst_some_spec _ l a b hsf
    refine ⟨fun x hx => by simpa using hbefore x hx, fun x hx => ?_⟩
    rw [hdecomp]
    exact List.mem_append_left _ hx

/-- The path part produced by `splitParams` only contains characters of
its input. -/
theorem splitParams_fst_subset (path : List Char) :
    ∀ x ∈ (splitParams path).1, x ∈ path := by
  intro x hx
  simp only [splitParams] at hx
  split_ifs at hx with hsl
  · cases hsp : splitFirst (· == ';') ((path.reverse.takeWhile (· ≠ '/')).reverse) with
    | none => rw [hsp] at hx; exact hx
    | some ab =>
      obtain ⟨a, b⟩ := ab
      rw [hsp] at hx
      rcases List.mem_append.mp hx with h | h
      · have h1 : x ∈ path.reverse.dropWhile (· ≠ '/') := List.mem_reverse.mp h
        have h2 : x ∈ path.reverse := (List.dropWhile_sublist _).mem h1
        exact List.mem_reverse.mp h2
      · obtain ⟨c, _, hdecomp, _⟩ := splitFirst_some_spec _ _ a b hsp
        have h1 : x ∈ (path.reverse.takeWhile (· ≠ '/')).reverse := by
          rw [hdecomp]; exact List.mem_append_left _ h
        have h2 : x ∈ path.reverse.takeWhile (· ≠ '/') := List.mem_reverse.mp h1
        have h3 : x ∈ path.reverse := (List.takeWhile_sublist _).mem h2
        exact List.mem_reverse.mp h3
  · cases hsp : splitFirst (· == ';') path with
    | none => rw [hsp] at hx; exact hx
    | some ab =>
      obtain ⟨a, b⟩ := ab
      rw [hsp] at hx
      obtain ⟨c, _, hdecomp, _⟩ := splitFirst_some_spec _ _ a b hsp
      rw [hdecomp]
      exact List.mem_append_left _ hx

/-- Lowercasing a scheme character never produces a `?` or `#`. -/
theorem asciiLower_of_schemeChar (c : Char) (h : schemeChar c = true) :
    asciiLower c ≠ '?' ∧ asciiLower c ≠ '#' := by
  unfold asciiLower
  split
  all_goals first
    | exact ⟨by decide, by decide⟩
    | (refine ⟨?_, ?_⟩ <;> rintro rfl <;> revert h <;> decide)

/-- The scheme emitted by `splitScheme` contains no `?` or `#`. -/
theorem splitScheme_fst_clean (l : List Char) :
    ∀ x ∈ (splitScheme l).1, x ≠ '?' ∧ x ≠ '#' := by
  unfold splitScheme
  cases hsf : splitFirst (· == ':') l with
  | none => simp
  | some pr =>
    obtain ⟨pre, rest⟩ := pr
    cases pre with
    | nil => simp
    | cons c cs =>
      dsimp only
      by_cases hca : c.isAlpha && (c :: cs).all schemeChar
      · rw [if_pos hca]
        intro x hx
        obtain ⟨y, hy, rfl⟩ := List.mem_map.mp hx
        have hall : ∀ z ∈ c :: cs, schemeChar z = true :=
          List.all_eq_true.mp (Bool.and_elim_right hca)
        exact asciiLower_of_schemeChar y (hall y hy)
      · rw [if_neg hca]
        simp

/-- The netloc emitted by `splitNetloc` contains no `?` or `#`. -/
theorem splitNetloc_fst_clean (l : List Char) :
    ∀ x ∈ (splitNetloc l).1, x ≠ '?' ∧ x ≠ '#' := by
  intro x hx
  rcases l with _ | ⟨c1, _ | ⟨c2, rest⟩⟩
  · simp [splitNetloc] at hx
  · simp [splitNetloc] at hx
  · by_cases h1 : c1 = '/'
    · by_cases h2 : c2 = '/'
      · subst h1; subst h2
        have hmem : x ∈ rest.takeWhile (fun c => !netlocDelim c) := by
          simpa [splitNetloc] using hx
        have := List.mem_takeWhile_imp hmem
        have hnd : netlocDelim x = false := by simpa using this
        constructor <;> rintro rfl <;> simp [netlocDelim] at hnd
      · simp [splitNetloc, h2] at hx
    · simp [splitNetloc, h1] at hx

/-- Characters of the reassembled URL (with empty params, query and
fragment) come from the scheme, netloc or path, or are the `:` and `/`
punctuation added by `urlunsplit`. -/
theorem mem_urlunparse_no_pqf (s n p : List Char) :
    ∀ x ∈ urlunparse ⟨s, n, p, [], [], []⟩,
      x ∈ s ∨ x ∈ n ∨ x ∈ p ∨ x = ':' ∨ x = '/' := by
  intro x hx
  simp only [urlunparse] at hx
  split_ifs at hx <;>
    (try simp only [List.mem_append, List.mem_cons, List.not_mem_nil, or_false,
      List.mem_singleton] at hx) <;>
    tauto

/-- Characters survive `rstripSlash` only if they were in the input. -/
theorem mem_rstripSlash (l : List Char) (x : Char) (h : x ∈ rstripSlash l) : x ∈ l := by
  unfold rstripSlash at h
  have h1 : x ∈ l.reverse.dropWhile (· == '/') := List.mem_reverse.mp h
  have h2 : x ∈ l.reverse := (List.dropWhile_sublist _).mem h1
  exact List.mem_reverse.mp h2

/-- The head of a `dropWhile` result never satisfies the predicate. -/
theorem head?_dropWhile_not (p : Char → Bool) (l : List Char) :
    ∀ c, (l.dropWhile p).head? = some c → p c = false := by
  induction l with
  | nil => simp
  | cons a t ih =>
    intro c h
    by_cases hp : p a
    · rw [List.dropWhile_cons_of_pos hp] at h
      exact ih c h
    · rw [List.dropWhile_cons_of_neg hp] at h
      simp only [List.head?_cons, Option.some.injEq] at h
      subst h
      simpa using hp

/-- After `rstripSlash` the last character is never a slash. -/
theorem rstripSlash_getLast_ne (l : List Char) :
    (rstripSlash l).getLast? ≠ some '/' := by
  unfold rstripSlash
  rw [List.getLast?_reverse]
  intro h
  have := head?_dropWhile_not (· == '/') l.reverse '/' h
  simp at this

/-- The scheme component of a parsed URL contains no `?` or `#`. -/
theorem urlparse_scheme_clean (l : List Char) :
    ∀ x ∈ (urlparse l).scheme, x ≠ '?' ∧ x ≠ '#' := by
  intro x hx
  have h : (urlparse l).scheme
      = (splitScheme (l.filter (fun c => !unsafeUrlByte c))).1 := rfl
  rw [h] at hx
  exact splitScheme_fst_clean _ x hx

/-- The netloc component of a parsed URL contains no `?` or `#`. -/
theorem urlparse_netloc_clean (l : List Char) :
    ∀ x ∈ (urlparse l).netloc, x ≠ '?' ∧ x ≠ '#' := by
  intro x hx
  have h : (urlparse l).netloc
      = (splitNetloc (splitScheme (l.filter (fun c => !unsafeUrlByte c))).2).1 := rfl
  rw [h] at hx
  exact splitNetloc_fst_clean _ x hx

/-- The path component of a parsed URL contains no `?` or `#`: it lies
before the first `?`, which itself lies before the first `#`. -/
theorem urlparse_path_clean (l : List Char) :
    ∀ x ∈ (urlparse l).path, x ≠ '?' ∧ x ≠ '#' := by
  intro x hx
  have hx2 : x ∈ (splitQuery (splitFragment
      (splitNetloc (splitScheme (l.filter (fun c => !unsafeUrlByte c))).2).2).1).1 := by
    cases hcond : usesParamsSchemes.contains
        (String.mk (splitScheme (l.filter (fun c => !unsafeUrlByte c))).1)
        && (splitQuery (splitFragment
          (splitNetloc (splitScheme (l.filter (fun c => !unsafeUrlByte c))).2).2).1).1.contains ';' with
    | true =>
      have h : (urlparse l).path
          = (splitParams (splitQuery (splitFragment
            (splitNetloc (splitScheme (l.filter (fun c => !unsafeUrlByte c))).2).2).1).1).1 := by
        simp only [urlparse, hcond]
        rfl
      rw [h] at hx
      exact splitParams_fst_subset _ x hx
    | false =>
      have h : (urlparse l).path
          = (splitQuery (splitFragment
            (splitNetloc (splitScheme (l.filter (fun c => !unsafeUrlByte c))).2).2).1).1 := by
        simp only [urlparse, hcond]
        rfl
      rw [h] at hx
      exact hx
  refine ⟨(splitQuery_fst_spec _).1 x hx2, ?_⟩
  have hx3 := (splitQuery_fst_spec _).2 x hx2
  exact (splitFragment_fst_spec _).1 x hx3

/-- C6 amended: `canonicalize_url` passes empty input through unchanged,
its output contains no `?` and no `#` (query, fragment and path
parameters are removed), and its output never ends in a slash (ALL
trailing slashes are stripped, not exactly one). -/
theorem c6_canonicalize_amended (url : String) :
    canonicalize_url "" = "" ∧
    (∀ c ∈ (canonicalize_url url).data, c ≠ '?' ∧ c ≠ '#') ∧
    (canonicalize_url url).data.getLast? ≠ some '/' := by
  refine ⟨rfl, ?_, ?_⟩
  · intro c hc
    by_cases hu : url = ""
    · subst hu
      have hempty : (canonicalize_url "").data = [] := by decide
      rw [hempty] at hc
      exact absurd hc (List.not_mem_nil c)
    · unfold canonicalize_url at hc
      rw [if_neg hu] at hc
      have hc2 := mem_rstripSlash _ _ hc
      have h3 := mem_urlunparse_no_pqf _ _ _ _ hc2
      rcases h3 with h | h | h | h | h
      · exact urlparse_scheme_clean url.data c h
      · exact urlparse_netloc_clean url.data c h
      · exact urlparse_path_clean url.data c h
      · subst h; exact ⟨by decide, by decide⟩
      · subst h; exact ⟨by decide, by decide⟩
  · by_cases hu : url = ""
    · subst hu
      have hempty : (canonicalize_url "").data = [] := by decide
      rw [hempty]
      decide
    · unfold canonicalize_url
      rw [if_neg hu]
      exact rstripSlash_getLast_ne _

/-- C6 counterexample: on `http://example.com/a//` the canonicalizer
strips BOTH trailing slashes, not exactly one — the result is
`http://example.com/a`, not `http://example.com/a/`. -/
theorem c6_strips_all_trailing_slashes_counterexample :
    canonicalize_url "http://example.com/a//" = "http://example.com/a" ∧
    canonicalize_url "http://example.com/a//" ≠ "http://example.com/a/" := by
  exact ⟨by decide, by decide⟩

/-! ## Claim C5 -/

/-- Unfolding step of the line splitter at a line-break character other
than a carriage return. -/
theorem splitLinesAux_cons_break (acc rest : List Char) (c : Char)
    (hcr : ¬ c = '\r') (hbr : lineBreakChar c = true) :
    splitLinesAux acc (c :: rest) = acc.reverse :: splitLinesAux [] rest := by
  cases rest with
  | nil => simp [splitLinesAux, hcr, hbr]
  | cons c2 t => simp [splitLinesAux, hcr, hbr]

/-- Unfolding step of the line splitter at an ordinary character. -/
theorem splitLinesAux_cons_keep (acc rest : List Char) (c : Char)
    (hcr : ¬ c = '\r') (hbr : ¬ lineBreakChar c = true) :
    splitLinesAux acc (c :: rest) = splitLinesAux (c :: acc) rest := by
  cases rest with
  | nil => simp [splitLinesAux, hcr, hbr]
  | cons c2 t => simp [splitLinesAux, hcr, hbr]

/-- Lines produced by the splitter contain no line-break characters. -/
theorem splitLinesAux_no_break :
    ∀ acc l, (∀ c ∈ acc, lineBreakChar c = false) →
      ∀ x ∈ splitLinesAux acc l, ∀ c ∈ x, lineBreakChar c = false := by
  intro acc l
  induction acc, l using splitLinesAux.induct with
  | case1 =>
    intro _ x hx
    simp [splitLinesAux] at hx
  | case2 acc hne =>
    intro hacc x hx
    simp [splitLinesAux, hne] at hx
    subst hx
    intro c hc
    exact hacc c (List.mem_reverse.mp hc)
  | case3 acc rest ih =>
    intro hacc x hx
    simp only [splitLinesAux] at hx
    rcases List.mem_cons.mp hx with rfl | hx'
    · intro c hc
      exact hacc c (List.mem_reverse.mp hc)
    · exact ih (by simp) x hx'
  | case4 acc c rest hno hbr ih =>
    intro hacc x hx
    have hstep : splitLinesAux acc (c :: rest) = acc.reverse :: splitLinesAux [] rest := by
      by_cases hcr : c = '\r'
      · subst hcr
        cases rest with
        | nil => simp [splitLinesAux, lineBreakChar]
        | cons c2 t =>
          have hc2 : ¬ c2 = '\n' := fun h => hno t rfl (by rw [h])
          simp [splitLinesAux, hc2, lineBreakChar]
      · exact splitLinesAux_cons_break acc rest c hcr hbr
    rw [hstep] at hx
    rcases List.mem_cons.mp hx with rfl | hx'
    · intro d hd
      exact hacc d (List.mem_reverse.mp hd)
    · exact ih (by simp) x hx'
  | case5 acc c rest hno hbr ih =>
    intro hacc x hx
    have hcr : ¬ c = '\r' := by
      rintro rfl
      exact hbr (by decide)
    rw [splitLinesAux_cons_keep acc rest c hcr hbr] at hx
    refine ih ?_ x hx
    intro d hd
    rcases List.mem_cons.mp hd with rfl | hd'
    · simpa using hbr
    · exact hacc d hd'

/-- On break-free input the splitter yields the single accumulated line. -/
theorem splitLinesAux_flat (p : List Char) (hp : ∀ c ∈ p, lineBreakChar c = false) :
    ∀ acc, splitLinesAux acc p = if acc = [] ∧ p = [] then [] else [acc.reverse ++ p] := by
  induction p with
  | nil =>
    intro acc
    by_cases h : acc = [] <;> simp [splitLinesAux, h]
  | cons c p' ih =>
    intro acc
    have hc := hp c (by simp)
    have hcr : ¬ c = '\r' := by rintro rfl; simp [lineBreakChar] at hc
    have hbr : ¬ lineBreakChar c = true := by simp [hc]
    rw [splitLinesAux_cons_keep acc p' c hcr hbr,
      ih (fun d hd => hp d (by simp [hd])) (c :: acc)]
    simp [List.append_assoc]

/-- Splitting a break-free prefix followed by a newline emits that prefix
as one line. -/
theorem splitLinesAux_append_nl (p t : List Char) (hp : ∀ c ∈ p, lineBreakChar c = false) :
    ∀ acc, splitLinesAux acc (p ++ '\n' :: t) = (acc.reverse ++ p) :: splitLinesAux [] t := by
  induction p with
  | nil =>
    intro acc
    rw [List.nil_append, splitLinesAux_cons_break acc t '\n' (by decide) (by decide)]
    simp
  | cons c p' ih =>
    intro acc
    have hc := hp c (by simp)
    have hcr : ¬ c = '\r' := by rintro rfl; simp [lineBreakChar] at hc
    have hbr : ¬ lineBreakChar c = true := by simp [hc]
    rw [List.cons_append, splitLinesAux_cons_keep acc _ c hcr hbr,
      ih (fun d hd => hp d (by simp [hd])) (c :: acc)]
    simp [List.append_assoc]

/-- Splitting a newline-joined list of non-empty break-free lines gives
the lines back. -/
theorem pySplitlines_joinLines (parts : List (List Char))
    (h : ∀ x ∈ parts, x ≠ [] ∧ ∀ c ∈ x, lineBreakChar c = false) :
    pySplitlines (joinLines ['\n'] parts) = parts := by
  induction parts with
  | nil =>
    unfold pySplitlines
    rw [show joinLines ['\n'] [] = ([] : List Char) from rfl,
      splitLinesAux_flat [] (by simp) []]
    simp
  | cons p rest ih =>
    cases rest with
    | nil =>
      obtain ⟨hne, hnb⟩ := h p (by simp)
      unfold pySplitlines
      rw [show joinLines ['\n'] [p] = p from rfl, splitLinesAux_flat p hnb []]
      simp [hne]
    | cons q rest' =>
      obtain ⟨hne, hnb⟩ := h p (by simp)
      unfold pySplitlines
      have hjoin : joinLines ['\n'] (p :: q :: rest')
          = p ++ '\n' :: joinLines ['\n'] (q :: rest') := by
        show p ++ ['\n'] ++ joinLines ['\n'] (q :: rest')
            = p ++ '\n' :: joinLines ['\n'] (q :: rest')
        simp
      rw [hjoin, splitLinesAux_append_nl p _ hnb []]
      simp only [List.reverse_nil, List.nil_append]
      congr 1
      exact ih (fun x hx => h x (by simp [hx]))

/-- A list whose head does not satisfy the predicate is fixed by
`dropWhile`. -/
theorem dropWhile_eq_self_of_head (p : Char → Bool) (l : List Char)
    (h : ∀ c, l.head? = some c → p c = false) : l.dropWhile p = l := by
  cases l with
  | nil => rfl
  | cons a t =>
    have : p a = false := h a rfl
    rw [List.dropWhile_cons_of_neg (by simp [this])]

/-- `dropWhile` is idempotent. -/
theorem dropWhile_dropWhile_self (p : Char → Bool) (l : List Char) :
    (l.dropWhile p).dropWhile p = l.dropWhile p :=
  dropWhile_eq_self_of_head p _ (head?_dropWhile_not p l)

/-- A stripped string has no leading whitespace. -/
theorem stripChars_no_lead (l : List Char) :
    (stripChars l).dropWhile pySpace = stripChars l := by
  apply dropWhile_eq_self_of_head
  intro c hc
  unfold stripChars at hc
  rw [List.head?_reverse] at hc
  rcases hz : (l.dropWhile pySpace).reverse.dropWhile pySpace with _ | ⟨a, z⟩
  · rw [hz] at hc; simp at hc
  · rw [hz] at hc
    have hsuf : ∃ u, (l.dropWhile pySpace).reverse = u ++ a :: z := by
      obtain ⟨u, hu⟩ := List.dropWhile_suffix pySpace (l := (l.dropWhile pySpace).reverse)
      exact ⟨u, by rw [← hz, hu]⟩
    obtain ⟨u, hu⟩ := hsuf
    have hlast : ((l.dropWhile pySpace).reverse).getLast? = (a :: z).getLast? := by
      rw [hu]
      exact List.getLast?_append_of_ne_nil u (by simp)
    rw [List.getLast?_reverse] at hlast
    have hc2 : (l.dropWhile pySpace).head? = some c := by
      rw [hlast, ← hc]
    exact head?_dropWhile_not pySpace l c hc2

/-- A stripped string has no trailing whitespace. -/
theorem stripChars_no_trail (l : List Char) :
    (stripChars l).reverse.dropWhile pySpace = (stripChars l).reverse := by
  unfold stripChars
  rw [List.reverse_reverse]
  exact dropWhile_dropWhile_self pySpace _

/-- A string with neither leading nor trailing whitespace is fixed by
stripping. -/
theorem stripChars_eq_self (l : List Char)
    (h1 : l.dropWhile pySpace = l)
    (h2 : l.reverse.dropWhile pySpace = l.reverse) : stripChars l = l := by
  unfold stripChars
  rw [h1, h2, List.reverse_reverse]

/-- Stripping is idempotent. -/
theorem stripChars_idem (l : List Char) : stripChars (stripChars l) = stripChars l :=
  stripChars_eq_self _ (stripChars_no_lead l) (stripChars_no_trail l)

/-- Characters survive stripping only if they were in the input. -/
theorem mem_stripChars (l : List Char) (x : Char) (h : x ∈ stripChars l) : x ∈ l := by
  unfold stripChars at h
  have h1 := List.mem_reverse.mp h
  have h2 := (List.dropWhile_sublist pySpace).mem h1
  have h3 := List.mem_reverse.mp h2
  exact (List.dropWhile_sublist pySpace).mem h3

/-- The lines assembled by the fallback branch are non-empty, break-free
and already stripped. -/
theorem fallbackChars_parts_good (l : List Char) :
    ∀ x ∈ ((pySplitlines l).map stripChars).filter (fun t => t ≠ []),
      x ≠ [] ∧ (∀ c ∈ x, lineBreakChar c = false) ∧ stripChars x = x := by
  intro x hx
  obtain ⟨hx1, hx2⟩ := List.mem_filter.mp hx
  obtain ⟨y, hy, rfl⟩ := List.mem_map.mp hx1
  have hyb : ∀ c ∈ y, lineBreakChar c = false :=
    splitLinesAux_no_break [] l (by simp) y hy
  refine ⟨by simpa using hx2, ?_, stripChars_idem y⟩
  intro c hc
  exact hyb c (mem_stripChars y c hc)

/-- The fallback branch is idempotent on character lists. -/
theorem fallbackChars_idem (l : List Char) :
    fallbackChars (fallbackChars l) = fallbackChars l := by
  have hgood := fallbackChars_parts_good l
  set parts := ((pySplitlines l).map stripChars).filter (fun t => t ≠ []) with hparts
  have hsplit : pySplitlines (joinLines ['\n'] parts) = parts :=
    pySplitlines_joinLines parts (fun x hx => ⟨(hgood x hx).1, (hgood x hx).2.1⟩)
  show joinLines ['\n']
      (((pySplitlines (joinLines ['\n'] parts)).map stripChars).filter (fun t => t ≠ []))
    = joinLines ['\n'] parts
  rw [hsplit]
  have hmap : parts.map stripChars = parts := by
    rw [List.map_congr_left (fun x hx => (hgood x hx).2.2)]
    exact List.map_id parts
  rw [hmap]
  congr 1
  apply List.filter_eq_self.mpr
  intro x hx
  simpa using (hgood x hx).1

/-- Truncation is the identity within the length bound. -/
theorem pyTake_of_length_le (n : Nat) (s : String) (h : s.length ≤ n) :
    pyTake n s = s := by
  unfold pyTake
  rw [List.take_of_length_le h]

/-- The fallback branch is idempotent on strings. -/
theorem fallbackText_idem (s : String) : fallbackText (fallbackText s) = fallbackText s := by
  show String.mk (fallbackChars (String.mk (fallbackChars s.data)).data)
      = String.mk (fallbackChars s.data)
  rw [show (String.mk (fallbackChars s.data)).data = fallbackChars s.data from rfl,
    fallbackChars_idem]

/-- C5 counterexample: cleaning the two-paragraph document joins the
paragraphs with a blank line, and re-cleaning that already-clean text (a
plain-text parse: no paragraph elements, text unchanged) collapses the
blank line — the cleaner is not idempotent. -/
theorem c5_clean_html_not_idempotent_counterexample :
    clean_html 15000 (some ⟨["a", "b"], "ab"⟩) "<p>a</p><p>b</p>" = "a\n\nb" ∧
    clean_html 15000 (some (plainParse "a\n\nb")) "a\n\nb" = "a\nb" ∧
    clean_html 15000 (some (plainParse "a\n\nb")) "a\n\nb"
      ≠ clean_html 15000 (some ⟨["a", "b"], "ab"⟩) "<p>a</p><p>b</p>" :=
  ⟨by decide, by decide, by decide⟩

/-- C5 amended: the cleaner is idempotent on the fallback (plain-text)
branch: re-cleaning the cleaned text of a paragraph-free document, when
the clean output was not truncated, changes nothing.  (Idempotence fails
in general: blank paragraph separators are collapsed on re-cleaning, and
truncation can expose strippable whitespace.) -/
theorem c5_fallback_reclean_noop (N : Nat) (s : String)
    (h : (fallbackText s).length ≤ N) :
    clean_html N (some (plainParse (clean_html N (some (plainParse s)) s)))
        (clean_html N (some (plainParse s)) s)
      = clean_html N (some (plainParse s)) s := by
  have h1 : clean_html N (some (plainParse s)) s = fallbackText s := by
    show pyTake N (fallbackText s) = fallbackText s
    exact pyTake_of_length_le N _ h
  rw [h1]
  have h2 : clean_html N (some (plainParse (fallbackText s))) (fallbackText s)
      = pyTake N (fallbackText (fallbackText s)) := rfl
  rw [h2, fallbackText_idem]
  exact pyTake_of_length_le N _ h

/-- C5 witness: a concrete plain-text document whose clean output fits the
bound is unchanged by re-cleaning. -/
theorem c5_fallback_reclean_noop_witness :
    (fallbackText "a\nb").length ≤ 100 ∧
    clean_html 100 (some (plainParse (clean_html 100 (some (plainParse "a\nb")) "a\nb")))
        (clean_html 100 (some (plainParse "a\nb")) "a\nb")
      = clean_html 100 (some (plainParse "a\nb")) "a\nb" :=
  ⟨by decide, c5_fallback_reclean_noop 100 "a\nb" (by decide)⟩
